import Mathlib

/-!
Shallow embedding of `cmd/worker/main.go` of the package-analysis worker.

The embedded code is the job-processing core: `handleMessage` (message
validation, staging, package resolution, phase execution, status
classification, upload, acknowledgement), `messageLoop` (the subscription
loop feeding messages to `handleMessage` with fixed configuration), the
retry supervisor loop in `main`, and `retryDelay`.

External collaborators (the pubsub client, blob buckets, the sandbox, the
`internal/analysis`, `internal/pkgecosystem` and `internal/resultstore`
packages) are not part of `cmd/worker/main.go`; they enter the embedding
as oracles: every call the worker makes to them is read off an
environment value, and the observable effects (acknowledgements, staging
reads, phase runs, lookups, uploads) are recorded in a trace.
-/

namespace PackageAnalysis

/-- Terminal status of one analysis phase.
Modelled from the spec: `internal/analysis` is not under `src/`; the spec
(§3) gives `status ∈ {Completed, ErrorAnalysis, ErrorTimeout, ErrorOther}`,
matching the four `analysis.Status*` constants used in `main.go`. -/
inductive Status where
  | completed
  | errorAnalysis
  | errorTimeout
  | errorOther
deriving DecidableEq, Repr

/-- Outcome record of one phase execution.
Modelled from the spec: `Result` — outcome of one phase:
`{status, phaseOutput}` (§3). `main.go` reads only `result.Status`. -/
structure AnalysisResult where
  status : Status
  phaseOutput : String
deriving DecidableEq, Repr

/-- Outcome of one `analysis.Run(sb, pkg.Command(phase))` call: either an
infrastructure-level error (the `err != nil` branch in `main.go`) or a
produced `Result`. -/
inductive RunOutcome where
  | fail (e : String)
  | ok (r : AnalysisResult)
deriving DecidableEq, Repr

/-- One inbound pubsub message's metadata. Go map lookups
(`msg.Metadata["name"]` etc.) return `""` for absent keys, so each field
is a plain string with `""` meaning absent. -/
structure Msg where
  name : String
  ecosystem : String
  version : String
  packagePath : String
  resultsBucketOverride : String
deriving DecidableEq, Repr

/-- A resolved package reference, tagged by which `pkgecosystem` manager
constructor produced it (`Local`, `Package`, or `Latest` in `main.go`
lines 113-128). -/
inductive Pkg where
  | localPkg (name version localPath : String)
  | package (name version : String)
  | latest (name version : String)
deriving DecidableEq, Repr

/-- An ecosystem package manager.
Modelled from the spec: `internal/pkgecosystem` is not under `src/`; the
ecosystem provider (§6) exposes `latestVersion(name) → version | error`
(`manager.Latest` in `main.go`), an ordered phase list
(`manager.DynamicPhases()`), and an image (`manager.Image()`). -/
structure Manager where
  image : String
  dynamicPhases : List String
  latestVersion : String → Except String String

/-- The structured log signal emitted by the final-status switch in
`handleMessage` (lines 154-180). -/
inductive LogSignal where
  | info (message : String)
  | warn (message : String)
deriving DecidableEq, Repr

/-- Go `path.Base`: returns the last element of the path; trailing
slashes are removed first; `""` gives `"."`; an all-slash path gives
`"/"`. Used by `main.go` line 109 via `localPkgPathFmt`. -/
def pathBase (p : String) : String :=
  if p = "" then "."
  else
    let trimmed := ((p.toList.reverse.dropWhile (fun c => c = '/')).reverse)
    if trimmed = [] then "/"
    else String.mk ((trimmed.reverse.takeWhile (fun c => c ≠ '/')).reverse)

/-- The Go map `results` starts empty: `make(map[string]*analysis.Result)`
(`main.go` line 132). A Go map is an unordered association of keys to
values, embedded as a function to `Option`. -/
def emptyResults : String → Option AnalysisResult := fun _ => none

/-- Map insertion, embedding `results[phase] = result` (`main.go` line 146). -/
def insertResult (phase : String) (r : AnalysisResult)
    (m : String → Option AnalysisResult) : String → Option AnalysisResult :=
  fun k => if k = phase then some r else m k

/-- The `Result` carried by a `RunOutcome`, if any. -/
def okValue : RunOutcome → Option AnalysisResult
  | .fail _ => none
  | .ok r => some r

/-- State of the phase-execution loop when it finishes: the results map,
the `finalStatus` and `lastPhase` variables, the list of phases actually
passed to `analysis.Run` (in call order), and the infrastructure error
that aborted the loop, if any. -/
structure ExecOut where
  results : String → Option AnalysisResult
  finalStatus : Status
  lastPhase : String
  executed : List String
  infraError : Option String

/-- The phase-execution loop of `handleMessage` (`main.go` lines 135-153):
for each phase in order, call `analysis.Run`; on an infrastructure error
return it (aborting the handler); otherwise record the result under the
phase name, set `lastPhase` and `finalStatus`, and stop iterating if the
status is not `Completed`. -/
def runPhases (run : String → RunOutcome) (results : String → Option AnalysisResult)
    (finalStatus : Status) (lastPhase : String) : List String → ExecOut
  | [] => ⟨results, finalStatus, lastPhase, [], none⟩
  | phase :: rest =>
    match run phase with
    | .fail e => ⟨results, finalStatus, lastPhase, [phase], some e⟩
    | .ok result =>
      let results1 := insertResult phase result results
      if result.status ≠ Status.completed then
        ⟨results1, result.status, phase, [phase], none⟩
      else
        let out := runPhases run results1 result.status phase rest
        { out with executed := phase :: out.executed }

/-- The final-status switch of `handleMessage` (`main.go` lines 154-180):
one log signal per status value (the message strings are the source's,
including its typo). -/
def classify (finalStatus : Status) : LogSignal :=
  match finalStatus with
  | .completed => .info "Analysis completed sucessfully"
  | .errorAnalysis => .warn "Analysis error - analysis"
  | .errorTimeout => .warn "Analysis error - timeout"
  | .errorOther => .warn "Analysis error - other"

/-- The observable effects of one `handleMessage` invocation: number of
`msg.Ack()` calls, whether the staging copy (bucket read / temp file) was
attempted, the phases passed to `analysis.Run` in call order, the number
of `manager.Latest` lookups, and whether a `resultstore` upload was
attempted. -/
structure Trace where
  acks : Nat
  stagingAttempted : Bool
  phasesRun : List String
  latestLookups : Nat
  uploadAttempted : Bool
deriving DecidableEq, Repr

/-- Everything one `handleMessage` invocation produces: its Go return
value, the effect trace, the phase-execution state (when the execution
loop was reached), the resolved package (when resolution succeeded), the
log signal of the final-status switch (when it was reached), and the
value of the handler's local `resultsBucket` variable at return. -/
structure HandleOutcome where
  ret : Except String Unit
  trace : Trace
  exec : Option ExecOut
  pkg : Option Pkg
  statusSignal : Option LogSignal
  effectiveBucket : String

/-- Whether the Go error return is nil. -/
def retOk : Except String Unit → Bool
  | .ok _ => true
  | .error _ => false

/-- Environment of oracles for the worker's external collaborators:
`pkgecosystem.Manager` lookup, the staging copy sequence (`main.go` lines
89-107, any failing step yielding its error), `analysis.Run` keyed by
phase, and `resultstore.Save`. -/
structure WorkerEnv where
  manager : String → Option Manager
  stage : String → Except String Unit
  run : String → RunOutcome
  save : Except String Unit

/-- The deliberate-drop exit of `handleMessage` (empty name, empty
ecosystem, or unsupported package manager): `msg.Ack()` then `return nil`,
with no staging, execution, resolution, classification or upload. The
handler's `resultsBucket` local still holds the caller's default. -/
def dropOutcome (resultsBucket : String) : HandleOutcome :=
  { ret := .ok ()
    trace := ⟨1, false, [], 0, false⟩
    exec := none
    pkg := none
    statusSignal := none
    effectiveBucket := resultsBucket }

/-- Tail of `handleMessage` from the sandbox construction on (`main.go` lines
130-191): run the phases, abort on an infrastructure error, log the
final-status switch, upload when `resultsBucket` is non-empty (wrapping
an upload error), and acknowledge on full success. `t` is the trace
accumulated before this point. -/
def runAndUpload (env : WorkerEnv) (pkg : Pkg) (phases : List String)
    (effBucket : String) (t : Trace) : HandleOutcome :=
  let out := runPhases env.run emptyResults Status.completed "" phases
  let t1 := { t with phasesRun := out.executed }
  match out.infraError with
  | some e =>
    { ret := .error e, trace := t1, exec := some out, pkg := some pkg
      statusSignal := none, effectiveBucket := effBucket }
  | none =>
    let signal := classify out.finalStatus
    if effBucket ≠ "" then
      match env.save with
      | .error e =>
        { ret := .error ("failed to upload to blobstore = " ++ e)
          trace := { t1 with uploadAttempted := true }
          exec := some out, pkg := some pkg
          statusSignal := some signal, effectiveBucket := effBucket }
      | .ok _ =>
        { ret := .ok ()
          trace := { t1 with uploadAttempted := true, acks := 1 }
          exec := some out, pkg := some pkg
          statusSignal := some signal, effectiveBucket := effBucket }
    else
      { ret := .ok ()
        trace := { t1 with acks := 1 }
        exec := some out, pkg := some pkg
        statusSignal := some signal, effectiveBucket := effBucket }

/-- The function `handleMessage` (`main.go` lines 37-191). `packagesBucket` is the
`*blob.Bucket` pointer (`none` = nil). `resultsBucket` and `imageTag` are
the caller's configuration strings; in Go both are value parameters, so
reassigning `resultsBucket` inside the handler (line 67) cannot affect
the caller's variable. Control flow, in source order: validate `name`,
validate `ecosystem`, look up the package manager (each failure: ack and
return nil); apply the per-message results-bucket override; if
`package_path` is set, require a packages bucket (hard error) and stage
the file; resolve the package (local path, then explicit version, then
latest lookup — a failed lookup is a hard error); run the phases; emit
the final-status log signal; upload when the effective bucket is
non-empty; ack and return nil. -/
def handleMessage (env : WorkerEnv) (msg : Msg) (packagesBucket : Option Unit)
    (resultsBucket : String) (imageTag : String) : HandleOutcome :=
  if msg.name = "" then
    dropOutcome resultsBucket
  else if msg.ecosystem = "" then
    dropOutcome resultsBucket
  else
    match env.manager msg.ecosystem with
    | none => dropOutcome resultsBucket
    | some manager =>
      let version := msg.version
      let pkgPath := msg.packagePath
      let effBucket :=
        if msg.resultsBucketOverride ≠ "" then msg.resultsBucketOverride
        else resultsBucket
      if pkgPath ≠ "" then
        match packagesBucket with
        | none =>
          { ret := .error "packages bucket not set"
            trace := ⟨0, false, [], 0, false⟩
            exec := none, pkg := none, statusSignal := none
            effectiveBucket := effBucket }
        | some _ =>
          match env.stage pkgPath with
          | .error e =>
            { ret := .error e
              trace := ⟨0, true, [], 0, false⟩
              exec := none, pkg := none, statusSignal := none
              effectiveBucket := effBucket }
          | .ok _ =>
            let localPkgPath := "/local/" ++ pathBase pkgPath
            runAndUpload env (Pkg.localPkg msg.name version localPkgPath)
              manager.dynamicPhases effBucket ⟨0, true, [], 0, false⟩
      else
        if version ≠ "" then
          runAndUpload env (Pkg.package msg.name version)
            manager.dynamicPhases effBucket ⟨0, false, [], 0, false⟩
        else
          match manager.latestVersion msg.name with
          | .error e =>
            { ret := .error e
              trace := ⟨0, false, [], 1, false⟩
              exec := none, pkg := none, statusSignal := none
              effectiveBucket := effBucket }
          | .ok v =>
            runAndUpload env (Pkg.latest msg.name v)
              manager.dynamicPhases effBucket ⟨0, false, [], 1, false⟩

/-- A message is deliberately dropped when its name or ecosystem is empty
or its ecosystem has no supported package manager (`main.go` lines
38-60). -/
def dropped (env : WorkerEnv) (msg : Msg) : Prop :=
  msg.name = "" ∨ msg.ecosystem = "" ∨ env.manager msg.ecosystem = none

instance (env : WorkerEnv) (msg : Msg) : Decidable (dropped env msg) := by
  unfold dropped
  have : Decidable (env.manager msg.ecosystem = none) := Option.decidableEqNone
  infer_instance

/-- The per-message behavior of `messageLoop` (`main.go` lines 210-221):
each received message is handled with the same packages bucket, the same
default results bucket, and the same image tag; a handler error is only
logged, the loop continues with the next message. -/
def messageOutcomes (env : WorkerEnv) (msgs : List Msg) (packagesBucket : Option Unit)
    (resultsBucket : String) (imageTag : String) : List HandleOutcome :=
  msgs.map (fun m => handleMessage env m packagesBucket resultsBucket imageTag)

/-- Constant `maxRetries` (`main.go` line 30). -/
def maxRetries : Nat := 10

/-- Constant `retryInterval` (`main.go` line 31). -/
def retryInterval : Nat := 1

/-- Function `retryDelay` (`main.go` lines 261-263):
`int(math.Floor(retryInterval * math.Pow(retryExpRate, float64(retryCount))))`
with `retryInterval = 1` and `retryExpRate = 1.5`, i.e. ⌊1·(3/2)^n⌋,
embedded exactly as natural floor division `3^n / 2^n`. -/
def retryDelay (retryCount : Nat) : Nat :=
  retryInterval * 3 ^ retryCount / 2 ^ retryCount

/-- How the supervisor loop in `main` ends after consuming a finite
stream of `messageLoop` return values: `exited c` is the `break` at
`retryCount >= maxRetries` with final counter `c`; `pending c` means the
stream was exhausted with the loop still running and counter `c`. -/
inductive SupervisorResult where
  | exited (retryCount : Nat)
  | pending (retryCount : Nat)
deriving DecidableEq, Repr

/-- The retry supervisor loop of `main` (`main.go` lines 241-258), run
over a stream of `messageLoop` outcomes (`none` = nil error): on a nil
error the counter is untouched and the loop repeats; on an error the
counter is pre-incremented and the loop breaks once it reaches
`maxRetries`, otherwise sleeps `retryDelay` and retries. -/
def supervise (retryCount : Nat) : List (Option String) → SupervisorResult
  | [] => .pending retryCount
  | outcome :: rest =>
    match outcome with
    | none => supervise retryCount rest
    | some _ =>
      let retryCount1 := retryCount + 1
      if retryCount1 ≥ maxRetries then .exited retryCount1
      else supervise retryCount1 rest

/-- Entry point `main` starts the supervisor with `retryCount := 0` (`main.go` line
225). -/
def mainLoop (outcomes : List (Option String)) : SupervisorResult :=
  supervise 0 outcomes

/-- Number of erroring `messageLoop` returns in an outcome stream. -/
def failureCount (outcomes : List (Option String)) : Nat :=
  (outcomes.filter (fun o => o.isSome)).length

/-- Concrete manager used by witnesses: one phase, a latest version only
for `pkgA`. -/
def mgrW : Manager :=
  ⟨"img", ["install"],
    fun n => if n = "pkgA" then Except.ok "9.9" else Except.error "no version"⟩

/-- Concrete environment used by witnesses: `npm` supported, staging and
save succeed, every phase completes. -/
def envW : WorkerEnv :=
  ⟨fun e => if e = "npm" then some mgrW else none,
    fun _ => Except.ok (), fun _ => RunOutcome.ok ⟨Status.completed, ""⟩, Except.ok ()⟩

/-- Concrete manager with an empty phase list, for the C9 witness. -/
def mgrW0 : Manager := ⟨"img", [], fun _ => Except.ok "1.0"⟩

/-- Concrete environment whose only ecosystem has no phases. -/
def envW0 : WorkerEnv :=
  ⟨fun ec => if ec = "npm" then some mgrW0 else none,
    fun _ => Except.ok (), fun _ => RunOutcome.fail "never run", Except.ok ()⟩

/-! ### Retry backoff (claim C3) -/

lemma two_pow_succ_le_three_pow : ∀ n : Nat, 2 ≤ n → 2 ^ (n + 1) ≤ 3 ^ n := by
  intro n hn
  induction n, hn using Nat.le_induction with
  | base => decide
  | succ m hm ih =>
    calc 2 ^ (m + 1 + 1) = 2 * 2 ^ (m + 1) := by ring
    _ ≤ 2 * 3 ^ m := by omega
    _ ≤ 3 * 3 ^ m := by
        have : 0 < 3 ^ m := Nat.pos_pow_of_pos m (by norm_num)
        omega
    _ = 3 ^ (m + 1) := by ring

/-- C3 counterexample: the retry delay is not strictly increasing at
`n = 0`: `retryDelay 1 = retryDelay 0 = 1` (⌊1.5⌋ = ⌊1⌋ = 1), refuting
`delay(n+1) > delay(n)` for every `n ≥ 0`. -/
theorem retryDelay_not_strictly_increasing_at_zero :
    retryDelay 1 = retryDelay 0
    ∧ ¬ (∀ n : Nat, retryDelay n < retryDelay (n + 1)) :=
  ⟨by decide, fun h => absurd (h 0) (by decide)⟩

/-- C3 amended: the retry delay `⌊1·1.5^n⌋` is strictly increasing from
`n = 1` on: `delay(n+1) > delay(n)` for every `n ≥ 1` (and in particular
on every count the worker actually uses, since `retryDelay` is only
called with `retryCount ≥ 1`); at `n = 0` it is merely non-decreasing. -/
theorem retryDelay_strictly_increasing_from_one (n : Nat) (h : 1 ≤ n) :
    retryDelay n < retryDelay (n + 1) := by
  rcases Nat.lt_or_ge n 2 with h2 | h2
  · interval_cases n
    decide
  · unfold retryDelay retryInterval
    simp only [one_mul]
    have hpos : 0 < 2 ^ (n + 1) := Nat.pos_pow_of_pos _ (by norm_num)
    have hq : 3 ^ n / 2 ^ n * 2 ^ n ≤ 3 ^ n := Nat.div_mul_le_self _ _
    have key : (3 ^ n / 2 ^ n + 1) * 2 ^ (n + 1) ≤ 3 ^ (n + 1) := by
      have h1 : 2 ^ (n + 1) ≤ 3 ^ n := two_pow_succ_le_three_pow n h2
      have e1 : (3 ^ n / 2 ^ n + 1) * 2 ^ (n + 1)
          = 2 * (3 ^ n / 2 ^ n * 2 ^ n) + 2 ^ (n + 1) := by ring
      have e2 : 3 ^ (n + 1) = 2 * 3 ^ n + 3 ^ n := by ring
      rw [e1, e2]
      omega
    have := (Nat.le_div_iff_mul_le hpos).mpr key
    omega

/-- Witness for the amended C3 theorem at `n = 1`:
`retryDelay 1 = 1 < 2 = retryDelay 2`. -/
theorem retryDelay_strictly_increasing_witness : retryDelay 1 < retryDelay 2 :=
  retryDelay_strictly_increasing_from_one 1 (by decide)

/-! ### Retry supervisor (claim C5) -/

lemma supervise_spec (outs : List (Option String)) :
    ∀ c : Nat, c < maxRetries →
      supervise c outs =
        if maxRetries ≤ c + failureCount outs then SupervisorResult.exited maxRetries
        else SupervisorResult.pending (c + failureCount outs) := by
  induction outs with
  | nil =>
    intro c hc
    have : ¬ maxRetries ≤ c + failureCount [] := by
      simp [failureCount]
      omega
    simp [supervise, this]
    simp [failureCount]
  | cons o rest ih =>
    intro c hc
    cases o with
    | none =>
      have hcount : failureCount (none :: rest) = failureCount rest := by
        simp [failureCount]
      rw [hcount]
      simpa [supervise] using ih c hc
    | some e =>
      have hcount : failureCount (some e :: rest) = failureCount rest + 1 := by
        simp [failureCount]
      rw [hcount]
      by_cases hmax : c + 1 ≥ maxRetries
      · have hc10 : c + 1 = maxRetries := by omega
        have hcond : maxRetries ≤ c + (failureCount rest + 1) := by omega
        simp [supervise, hmax, hcond, hc10]
      · have h1 := ih (c + 1) (by omega)
        have : supervise c (some e :: rest) = supervise (c + 1) rest := by
          simp [supervise, hmax]
        rw [this, h1]
        by_cases hcond : maxRetries ≤ c + 1 + failureCount rest
        · have hcond2 : maxRetries ≤ c + (failureCount rest + 1) := by omega
          simp [hcond, hcond2]
        · have hcond2 : ¬ maxRetries ≤ c + (failureCount rest + 1) := by omega
          simp [hcond, hcond2]
          omega

/-- C5: the supervisor's failure counter starts at 0, increases by
exactly 1 on each erroring `messageLoop` return, is untouched by
non-erroring returns, and the loop breaks exactly when the counter
reaches `maxRetries = 10`: with fewer than 10 failures in the outcome
stream the loop is still running and its counter equals the number of
failures seen; with 10 or more failures it exits with counter exactly
`maxRetries` (the break fires at the 10th failure, never earlier, never
later). -/
theorem retry_supervisor_exact_max (outs : List (Option String)) :
    (failureCount outs < maxRetries →
      mainLoop outs = SupervisorResult.pending (failureCount outs))
    ∧ (maxRetries ≤ failureCount outs →
      mainLoop outs = SupervisorResult.exited maxRetries) := by
  have h := supervise_spec outs 0 (by decide)
  unfold mainLoop
  rw [h]
  constructor
  · intro hf
    have hnot : ¬ maxRetries ≤ 0 + failureCount outs := by omega
    rw [if_neg hnot, Nat.zero_add]
  · intro hf
    have hle : maxRetries ≤ 0 + failureCount outs := by omega
    rw [if_pos hle]

/-- Witness for C5: a stream of 12 consecutive failures makes the
supervisor exit with counter exactly 10; a stream with 2 failures and one
success leaves it pending with counter 2 (the success did not reset). -/
theorem retry_supervisor_exact_max_witness :
    mainLoop (List.replicate 12 (some "boom")) = SupervisorResult.exited 10
    ∧ mainLoop [some "e1", none, some "e2"] = SupervisorResult.pending 2 := by
  constructor
  · exact (retry_supervisor_exact_max (List.replicate 12 (some "boom"))).2 (by decide)
  · exact (retry_supervisor_exact_max [some "e1", none, some "e2"]).1 (by decide)

/-! ### Phase executor (claims C1, C2, C9) -/

/-- The results accumulator never influences the execution loop's control
flow: final status, last phase, executed list and infrastructure error
are independent of it. -/
lemma runPhases_control_eq (run : String → RunOutcome) :
    ∀ (l : List String) (m m' : String → Option AnalysisResult) (s : Status) (p : String),
      (runPhases run m s p l).finalStatus = (runPhases run m' s p l).finalStatus
      ∧ (runPhases run m s p l).lastPhase = (runPhases run m' s p l).lastPhase
      ∧ (runPhases run m s p l).executed = (runPhases run m' s p l).executed
      ∧ (runPhases run m s p l).infraError = (runPhases run m' s p l).infraError := by
  intro l
  induction l with
  | nil => intro m m' s p; simp [runPhases]
  | cons ph rest ih =>
    intro m m' s p
    simp only [runPhases]
    cases hr : run ph with
    | fail e => simp
    | ok r =>
      by_cases hst : r.status = Status.completed
      · simp only [hst, ne_eq, not_true_eq_false, if_false]
        obtain ⟨h1, h2, h3, h4⟩ :=
          ih (insertResult ph r m) (insertResult ph r m') Status.completed ph
        exact ⟨h1, h2, by simp [h3], h4⟩
      · simp [hst]

/-- Running a prefix of phases that all complete successfully: the loop
continues into the remaining phases with `finalStatus = Completed` and
`lastPhase` the last prefix phase, and every prefix phase was executed. -/
lemma runPhases_append_completed (run : String → RunOutcome) :
    ∀ (pre : List String),
      (∀ ph ∈ pre, ∃ r, run ph = RunOutcome.ok r ∧ r.status = Status.completed) →
    ∀ (m : String → Option AnalysisResult) (s : Status) (p : String) (rest : List String),
      (runPhases run m s p (pre ++ rest)).finalStatus
          = (runPhases run m (if pre.isEmpty then s else Status.completed) (pre.getLastD p) rest).finalStatus
      ∧ (runPhases run m s p (pre ++ rest)).lastPhase
          = (runPhases run m (if pre.isEmpty then s else Status.completed) (pre.getLastD p) rest).lastPhase
      ∧ (runPhases run m s p (pre ++ rest)).executed
          = pre ++ (runPhases run m (if pre.isEmpty then s else Status.completed) (pre.getLastD p) rest).executed
      ∧ (runPhases run m s p (pre ++ rest)).infraError
          = (runPhases run m (if pre.isEmpty then s else Status.completed) (pre.getLastD p) rest).infraError := by
  intro pre
  induction pre with
  | nil =>
    intro _ m s p rest
    simp
  | cons ph pre ih =>
    intro h m s p rest
    obtain ⟨r, hr, hst⟩ := h ph (List.mem_cons_self ph pre)
    have hpre : ∀ q ∈ pre, ∃ r, run q = RunOutcome.ok r ∧ r.status = Status.completed :=
      fun q hq => h q (List.mem_cons_of_mem _ hq)
    have stepF : (runPhases run m s p ((ph :: pre) ++ rest)).finalStatus
        = (runPhases run (insertResult ph r m) Status.completed ph (pre ++ rest)).finalStatus := by
      simp only [List.cons_append, runPhases, hr, hst, ne_eq, not_true_eq_false, if_false,
        List.append_eq]
    have stepP : (runPhases run m s p ((ph :: pre) ++ rest)).lastPhase
        = (runPhases run (insertResult ph r m) Status.completed ph (pre ++ rest)).lastPhase := by
      simp only [List.cons_append, runPhases, hr, hst, ne_eq, not_true_eq_false, if_false,
        List.append_eq]
    have stepE : (runPhases run m s p ((ph :: pre) ++ rest)).executed
        = ph :: (runPhases run (insertResult ph r m) Status.completed ph (pre ++ rest)).executed := by
      simp only [List.cons_append, runPhases, hr, hst, ne_eq, not_true_eq_false, if_false,
        List.append_eq]
    have stepI : (runPhases run m s p ((ph :: pre) ++ rest)).infraError
        = (runPhases run (insertResult ph r m) Status.completed ph (pre ++ rest)).infraError := by
      simp only [List.cons_append, runPhases, hr, hst, ne_eq, not_true_eq_false, if_false,
        List.append_eq]
    obtain ⟨h1, h2, h3, h4⟩ := ih hpre (insertResult ph r m) Status.completed ph rest
    have hIf : (if pre.isEmpty then Status.completed else Status.completed)
        = Status.completed := ite_self _
    rw [hIf] at h1 h2 h3 h4
    obtain ⟨g1, g2, g3, g4⟩ :=
      runPhases_control_eq run rest (insertResult ph r m) m
        Status.completed (pre.getLastD ph)
    have htarget :
        (if (ph :: pre).isEmpty then s else Status.completed) = Status.completed := by
      simp
    rw [htarget, List.getLastD_cons]
    refine ⟨?_, ?_, ?_, ?_⟩
    · exact stepF.trans (h1.trans g1)
    · exact stepP.trans (h2.trans g2)
    · rw [stepE, h3, g3, List.cons_append]
    · exact stepI.trans (h4.trans g4)

/-- Running phases that all complete successfully: every phase is
executed in order, `finalStatus` is `Completed` (unless no phase ran, in
which case it stays at the initial value), `lastPhase` is the last phase,
and there is no infrastructure error. -/
lemma runPhases_all_completed (run : String → RunOutcome) :
    ∀ (l : List String),
      (∀ ph ∈ l, ∃ r, run ph = RunOutcome.ok r ∧ r.status = Status.completed) →
    ∀ (m : String → Option AnalysisResult) (s : Status) (p : String),
      (runPhases run m s p l).finalStatus = (if l.isEmpty then s else Status.completed)
      ∧ (runPhases run m s p l).lastPhase = l.getLastD p
      ∧ (runPhases run m s p l).executed = l
      ∧ (runPhases run m s p l).infraError = none := by
  intro l
  induction l with
  | nil => intro _ m s p; simp [runPhases]
  | cons ph rest ih =>
    intro h m s p
    obtain ⟨r, hr, hst⟩ := h ph (List.mem_cons_self ph rest)
    have hrest : ∀ q ∈ rest, ∃ r, run q = RunOutcome.ok r ∧ r.status = Status.completed :=
      fun q hq => h q (List.mem_cons_of_mem _ hq)
    obtain ⟨h1, h2, h3, h4⟩ := ih hrest (insertResult ph r m) Status.completed ph
    simp only [runPhases, hr, hst, ne_eq, not_true_eq_false, if_false]
    refine ⟨?_, ?_, ?_, ?_⟩
    · rw [h1]
      cases rest <;> simp
    · rw [h2, List.getLastD_cons]
    · simp [h3]
    · exact h4

/-- C1: the phase executor runs phases in declared order and stops at the
first phase whose Result status is not Completed. If phase `k` yields a
non-Completed status (all earlier phases completing), then exactly phases
`0..k` are executed (phases `k+1..n` never run), `finalStatus` is phase
`k`'s status and `lastPhase` is phase `k`'s name; if every phase yields
Completed, `finalStatus` is Completed, `lastPhase` is the last declared
phase and every phase is executed. -/
theorem phase_executor_order_and_early_exit (run : String → RunOutcome) (l : List String) :
    (∀ (k : Nat) (hk : k < l.length) (r : AnalysisResult),
      (∀ (i : Nat) (hi : i < k), ∃ ri,
          run (l.getD i "") = RunOutcome.ok ri ∧ ri.status = Status.completed) →
      run (l.getD k "") = RunOutcome.ok r →
      r.status ≠ Status.completed →
      (runPhases run emptyResults Status.completed "" l).executed = l.take (k + 1)
      ∧ (runPhases run emptyResults Status.completed "" l).finalStatus = r.status
      ∧ (runPhases run emptyResults Status.completed "" l).lastPhase = l.getD k "")
    ∧ ((∀ ph ∈ l, ∃ r, run ph = RunOutcome.ok r ∧ r.status = Status.completed) →
      (runPhases run emptyResults Status.completed "" l).finalStatus = Status.completed
      ∧ (runPhases run emptyResults Status.completed "" l).lastPhase = l.getLastD ""
      ∧ (runPhases run emptyResults Status.completed "" l).executed = l) := by
  constructor
  · intro k hk r hpre hrun hnc
    rw [List.getD_eq_getElem l "" hk] at hrun
    have hsplit : l = l.take k ++ (l.getD k "" :: l.drop (k + 1)) := by
      conv_lhs => rw [← List.take_append_drop k l]
      congr 1
      rw [List.drop_eq_getElem_cons hk]
      rw [List.getD_eq_getElem l "" hk]
    have hpre2 : ∀ ph ∈ l.take k, ∃ ri,
        run ph = RunOutcome.ok ri ∧ ri.status = Status.completed := by
      intro ph hph
      obtain ⟨i, hi, hget⟩ := List.getElem_of_mem hph
      have hik : i < k := by
        have h2 := hi
        rw [List.length_take] at h2
        exact (lt_min_iff.mp h2).1
      obtain ⟨ri, hri, hsi⟩ := hpre i hik
      refine ⟨ri, ?_, hsi⟩
      have hgeq : l.getD i "" = ph := by
        rw [List.getD_eq_getElem l "" (Nat.lt_trans hik hk)]
        rw [← List.getElem_take l, hget]
      rwa [hgeq] at hri
    obtain ⟨a1, a2, a3, a4⟩ :=
      runPhases_append_completed run (l.take k) hpre2 emptyResults Status.completed ""
        (l.getD k "" :: l.drop (k + 1))
    rw [ite_self] at a1 a2 a3 a4
    have hrunD : run (l.getD k "") = RunOutcome.ok r := by
      rw [List.getD_eq_getElem l "" hk]
      exact hrun
    have hrunEval :
        runPhases run emptyResults Status.completed ((l.take k).getLastD "")
            (l.getD k "" :: l.drop (k + 1))
          = ⟨insertResult (l.getD k "") r emptyResults, r.status, l.getD k "",
              [l.getD k ""], none⟩ := by
      simp only [runPhases, hrunD]
      rw [if_pos hnc]
    refine ⟨?_, ?_, ?_⟩
    · conv_lhs => rw [hsplit]
      rw [a3, hrunEval]
      rw [List.take_succ, List.getElem?_eq_getElem hk]
      rw [List.getD_eq_getElem l "" hk]
      simp
    · conv_lhs => rw [hsplit]
      rw [a1, hrunEval]
    · conv_lhs => rw [hsplit]
      rw [a2, hrunEval]
  · intro hall
    obtain ⟨h1, h2, h3, h4⟩ :=
      runPhases_all_completed run l hall emptyResults Status.completed ""
    refine ⟨?_, h2, h3⟩
    rw [h1, ite_self]

/-- Witness for C1 at a concrete run: phases `[install, run, extra]`
where `run` yields ErrorAnalysis; only `[install, run]` execute, the
final status is ErrorAnalysis and the last phase is `run`. The second
part is witnessed by the fully successful list `[install, run]`. -/
theorem phase_executor_order_witness :
    ((runPhases (fun ph => if ph = "run" then RunOutcome.ok ⟨Status.errorAnalysis, ""⟩
        else RunOutcome.ok ⟨Status.completed, ""⟩)
        emptyResults Status.completed "" ["install", "run", "extra"]).executed
      = ["install", "run"]
    ∧ (runPhases (fun ph => if ph = "run" then RunOutcome.ok ⟨Status.errorAnalysis, ""⟩
        else RunOutcome.ok ⟨Status.completed, ""⟩)
        emptyResults Status.completed "" ["install", "run", "extra"]).finalStatus
      = Status.errorAnalysis
    ∧ (runPhases (fun ph => if ph = "run" then RunOutcome.ok ⟨Status.errorAnalysis, ""⟩
        else RunOutcome.ok ⟨Status.completed, ""⟩)
        emptyResults Status.completed "" ["install", "run", "extra"]).lastPhase = "run")
    ∧ ((runPhases (fun _ => RunOutcome.ok ⟨Status.completed, ""⟩)
        emptyResults Status.completed "" ["install", "run"]).finalStatus = Status.completed
    ∧ (runPhases (fun _ => RunOutcome.ok ⟨Status.completed, ""⟩)
        emptyResults Status.completed "" ["install", "run"]).lastPhase = "run"
    ∧ (runPhases (fun _ => RunOutcome.ok ⟨Status.completed, ""⟩)
        emptyResults Status.completed "" ["install", "run"]).executed = ["install", "run"]) := by
  constructor
  · have h := (phase_executor_order_and_early_exit
      (fun ph => if ph = "run" then RunOutcome.ok ⟨Status.errorAnalysis, ""⟩
        else RunOutcome.ok ⟨Status.completed, ""⟩) ["install", "run", "extra"]).1
      1 (by decide) ⟨Status.errorAnalysis, ""⟩
      (by
        intro i hi
        cases i with
        | zero =>
          refine ⟨⟨Status.completed, ""⟩, ?_, rfl⟩
          decide
        | succ j => omega)
      (by decide) (by decide)
    exact h
  · have h := (phase_executor_order_and_early_exit
      (fun _ => RunOutcome.ok ⟨Status.completed, ""⟩) ["install", "run"]).2
      (by
        intro ph hph
        exact ⟨⟨Status.completed, ""⟩, rfl, rfl⟩)
    simpa using h

/-! ### Handler effect characterization (claims C4, C6, C7, C8, C9, C10) -/

/-- What the execution-classification-upload-ack tail of `handleMessage`
produces, in terms of the phase-execution outcome, the effective bucket
and the incoming trace. -/
lemma runAndUpload_spec (env : WorkerEnv) (pkg : Pkg) (phases : List String)
    (effBucket : String) (t : Trace) :
    (runAndUpload env pkg phases effBucket t).exec
        = some (runPhases env.run emptyResults Status.completed "" phases)
    ∧ (runAndUpload env pkg phases effBucket t).pkg = some pkg
    ∧ (runAndUpload env pkg phases effBucket t).effectiveBucket = effBucket
    ∧ (runAndUpload env pkg phases effBucket t).trace.stagingAttempted = t.stagingAttempted
    ∧ (runAndUpload env pkg phases effBucket t).trace.latestLookups = t.latestLookups
    ∧ (runAndUpload env pkg phases effBucket t).trace.phasesRun
        = (runPhases env.run emptyResults Status.completed "" phases).executed
    ∧ (runAndUpload env pkg phases effBucket t).trace.acks
        = (if retOk (runAndUpload env pkg phases effBucket t).ret then 1 else t.acks)
    ∧ ((runAndUpload env pkg phases effBucket t).trace.uploadAttempted = true ↔
        (((runPhases env.run emptyResults Status.completed "" phases).infraError = none
            ∧ effBucket ≠ "") ∨ t.uploadAttempted = true))
    ∧ (retOk (runAndUpload env pkg phases effBucket t).ret = true ↔
        ((runPhases env.run emptyResults Status.completed "" phases).infraError = none
          ∧ (effBucket = "" ∨ retOk env.save = true)))
    ∧ ((runPhases env.run emptyResults Status.completed "" phases).infraError = none →
        (runAndUpload env pkg phases effBucket t).statusSignal
          = some (classify
              (runPhases env.run emptyResults Status.completed "" phases).finalStatus)) := by
  simp only [runAndUpload]
  split
  · rename_i e heq
    simp [retOk, heq]
  · rename_i heq
    split
    · rename_i hne
      split
      · rename_i e hsave
        simp [retOk, heq, hne, hsave]
      · rename_i u hsave
        simp [retOk, heq, hne, hsave]
    · rename_i hne
      have heq2 : effBucket = "" := not_not.mp hne
      simp [retOk, heq, heq2]

/-- Branch equation: empty name is a deliberate drop. -/
lemma handleMessage_drop_name (env : WorkerEnv) (msg : Msg) (pb : Option Unit)
    (rb tag : String) (h1 : msg.name = "") :
    handleMessage env msg pb rb tag = dropOutcome rb := by
  simp only [handleMessage, h1]
  simp

/-- Branch equation: empty ecosystem is a deliberate drop. -/
lemma handleMessage_drop_ecosystem (env : WorkerEnv) (msg : Msg) (pb : Option Unit)
    (rb tag : String) (h1 : ¬ msg.name = "") (h2 : msg.ecosystem = "") :
    handleMessage env msg pb rb tag = dropOutcome rb := by
  simp only [handleMessage, h2]
  simp [h1]

/-- Branch equation: unsupported package manager is a deliberate drop. -/
lemma handleMessage_drop_manager (env : WorkerEnv) (msg : Msg) (pb : Option Unit)
    (rb tag : String) (h1 : ¬ msg.name = "") (h2 : ¬ msg.ecosystem = "")
    (hm : env.manager msg.ecosystem = none) :
    handleMessage env msg pb rb tag = dropOutcome rb := by
  simp only [handleMessage, hm]
  simp [h1, h2]

/-- Branch equation: `package_path` set but no packages bucket. -/
lemma handleMessage_no_packages_bucket (env : WorkerEnv) (msg : Msg)
    (rb tag : String) (mgr : Manager)
    (h1 : ¬ msg.name = "") (h2 : ¬ msg.ecosystem = "")
    (hm : env.manager msg.ecosystem = some mgr) (h3 : msg.packagePath ≠ "") :
    handleMessage env msg none rb tag =
      { ret := Except.error "packages bucket not set"
        trace := ⟨0, false, [], 0, false⟩
        exec := none, pkg := none, statusSignal := none
        effectiveBucket :=
          if msg.resultsBucketOverride ≠ "" then msg.resultsBucketOverride else rb } := by
  simp only [handleMessage, hm]
  simp [h1, h2, h3]

/-- Branch equation: staging from the packages bucket fails. -/
lemma handleMessage_stage_error (env : WorkerEnv) (msg : Msg)
    (rb tag : String) (mgr : Manager) (e : String)
    (h1 : ¬ msg.name = "") (h2 : ¬ msg.ecosystem = "")
    (hm : env.manager msg.ecosystem = some mgr) (h3 : msg.packagePath ≠ "")
    (hst : env.stage msg.packagePath = Except.error e) :
    handleMessage env msg (some ()) rb tag =
      { ret := Except.error e
        trace := ⟨0, true, [], 0, false⟩
        exec := none, pkg := none, statusSignal := none
        effectiveBucket :=
          if msg.resultsBucketOverride ≠ "" then msg.resultsBucketOverride else rb } := by
  simp only [handleMessage, hm, hst]
  simp [h1, h2, h3]

/-- Branch equation: staging succeeds; the package is resolved as a
locally staged artifact (no version lookup). -/
lemma handleMessage_staged (env : WorkerEnv) (msg : Msg)
    (rb tag : String) (mgr : Manager)
    (h1 : ¬ msg.name = "") (h2 : ¬ msg.ecosystem = "")
    (hm : env.manager msg.ecosystem = some mgr) (h3 : msg.packagePath ≠ "")
    (hst : env.stage msg.packagePath = Except.ok ()) :
    handleMessage env msg (some ()) rb tag =
      runAndUpload env
        (Pkg.localPkg msg.name msg.version ("/local/" ++ pathBase msg.packagePath))
        mgr.dynamicPhases
        (if msg.resultsBucketOverride ≠ "" then msg.resultsBucketOverride else rb)
        ⟨0, true, [], 0, false⟩ := by
  simp only [handleMessage, hm, hst]
  simp [h1, h2, h3]

/-- Branch equation: no local path, explicit version. -/
lemma handleMessage_explicit_version (env : WorkerEnv) (msg : Msg) (pb : Option Unit)
    (rb tag : String) (mgr : Manager)
    (h1 : ¬ msg.name = "") (h2 : ¬ msg.ecosystem = "")
    (hm : env.manager msg.ecosystem = some mgr) (h3 : msg.packagePath = "")
    (h4 : msg.version ≠ "") :
    handleMessage env msg pb rb tag =
      runAndUpload env (Pkg.package msg.name msg.version) mgr.dynamicPhases
        (if msg.resultsBucketOverride ≠ "" then msg.resultsBucketOverride else rb)
        ⟨0, false, [], 0, false⟩ := by
  simp only [handleMessage, hm, h3]
  simp [h1, h2, h4]

/-- Branch equation: no local path, no version, latest lookup fails. -/
lemma handleMessage_latest_error (env : WorkerEnv) (msg : Msg) (pb : Option Unit)
    (rb tag : String) (mgr : Manager) (e : String)
    (h1 : ¬ msg.name = "") (h2 : ¬ msg.ecosystem = "")
    (hm : env.manager msg.ecosystem = some mgr) (h3 : msg.packagePath = "")
    (h4 : msg.version = "") (hl : mgr.latestVersion msg.name = Except.error e) :
    handleMessage env msg pb rb tag =
      { ret := Except.error e
        trace := ⟨0, false, [], 1, false⟩
        exec := none, pkg := none, statusSignal := none
        effectiveBucket :=
          if msg.resultsBucketOverride ≠ "" then msg.resultsBucketOverride else rb } := by
  simp only [handleMessage, hm, h3, h4, hl]
  simp [h1, h2]

/-- Branch equation: no local path, no version, latest lookup succeeds. -/
lemma handleMessage_latest_ok (env : WorkerEnv) (msg : Msg) (pb : Option Unit)
    (rb tag : String) (mgr : Manager) (v : String)
    (h1 : ¬ msg.name = "") (h2 : ¬ msg.ecosystem = "")
    (hm : env.manager msg.ecosystem = some mgr) (h3 : msg.packagePath = "")
    (h4 : msg.version = "") (hl : mgr.latestVersion msg.name = Except.ok v) :
    handleMessage env msg pb rb tag =
      runAndUpload env (Pkg.latest msg.name v) mgr.dynamicPhases
        (if msg.resultsBucketOverride ≠ "" then msg.resultsBucketOverride else rb)
        ⟨0, false, [], 1, false⟩ := by
  simp only [handleMessage, hm, h3, h4, hl]
  simp [h1, h2]

/-- C4: `handleMessage` acknowledges the message exactly once when it
returns nil (full processing or deliberate drop) and zero times on every
path returning a non-nil error (missing packages store, staging failure,
latest-lookup failure, phase infrastructure failure, upload failure):
the ack count is 1 exactly when the return value is nil, else 0. -/
theorem ack_exactly_once_iff_nil_return (env : WorkerEnv) (msg : Msg)
    (packagesBucket : Option Unit) (resultsBucket imageTag : String) :
    (handleMessage env msg packagesBucket resultsBucket imageTag).trace.acks
      = if retOk (handleMessage env msg packagesBucket resultsBucket imageTag).ret
        then 1 else 0 := by
  by_cases h1 : msg.name = ""
  · rw [handleMessage_drop_name env msg packagesBucket resultsBucket imageTag h1]
    simp [dropOutcome, retOk]
  by_cases h2 : msg.ecosystem = ""
  · rw [handleMessage_drop_ecosystem env msg packagesBucket resultsBucket imageTag h1 h2]
    simp [dropOutcome, retOk]
  cases hm : env.manager msg.ecosystem with
  | none =>
    rw [handleMessage_drop_manager env msg packagesBucket resultsBucket imageTag h1 h2 hm]
    simp [dropOutcome, retOk]
  | some mgr =>
    by_cases h3 : msg.packagePath = ""
    · by_cases h4 : msg.version = ""
      · cases hl : mgr.latestVersion msg.name with
        | error e =>
          rw [handleMessage_latest_error env msg packagesBucket resultsBucket imageTag
            mgr e h1 h2 hm h3 h4 hl]
          simp [retOk]
        | ok v =>
          rw [handleMessage_latest_ok env msg packagesBucket resultsBucket imageTag
            mgr v h1 h2 hm h3 h4 hl]
          exact (runAndUpload_spec _ _ _ _ _).2.2.2.2.2.2.1
      · rw [handleMessage_explicit_version env msg packagesBucket resultsBucket imageTag
          mgr h1 h2 hm h3 h4]
        exact (runAndUpload_spec _ _ _ _ _).2.2.2.2.2.2.1
    · cases packagesBucket with
      | none =>
        rw [handleMessage_no_packages_bucket env msg resultsBucket imageTag mgr h1 h2 hm h3]
        simp [retOk]
      | some u =>
        cases u
        cases hst : env.stage msg.packagePath with
        | error e =>
          rw [handleMessage_stage_error env msg resultsBucket imageTag mgr e h1 h2 hm h3 hst]
          simp [retOk]
        | ok u2 =>
          cases u2
          rw [handleMessage_staged env msg resultsBucket imageTag mgr h1 h2 hm h3 hst]
          exact (runAndUpload_spec _ _ _ _ _).2.2.2.2.2.2.1

/-- C6: a message with empty name, empty ecosystem, or an ecosystem with
no supported package manager is acknowledged (exactly once), the handler
returns nil, and no staging, phase execution, or upload happens. -/
theorem drop_ack_and_no_side_effects (env : WorkerEnv) (msg : Msg)
    (packagesBucket : Option Unit) (resultsBucket imageTag : String)
    (h : dropped env msg) :
    (handleMessage env msg packagesBucket resultsBucket imageTag).ret = Except.ok ()
    ∧ (handleMessage env msg packagesBucket resultsBucket imageTag).trace.acks = 1
    ∧ (handleMessage env msg packagesBucket resultsBucket imageTag).trace.stagingAttempted = false
    ∧ (handleMessage env msg packagesBucket resultsBucket imageTag).trace.phasesRun = []
    ∧ (handleMessage env msg packagesBucket resultsBucket imageTag).trace.uploadAttempted = false
    ∧ (handleMessage env msg packagesBucket resultsBucket imageTag).exec = none := by
  have hdrop : handleMessage env msg packagesBucket resultsBucket imageTag
      = dropOutcome resultsBucket := by
    rcases h with h1 | h2 | hm
    · exact handleMessage_drop_name _ _ _ _ _ h1
    · by_cases h1 : msg.name = ""
      · exact handleMessage_drop_name _ _ _ _ _ h1
      · exact handleMessage_drop_ecosystem _ _ _ _ _ h1 h2
    · by_cases h1 : msg.name = ""
      · exact handleMessage_drop_name _ _ _ _ _ h1
      · by_cases h2 : msg.ecosystem = ""
        · exact handleMessage_drop_ecosystem _ _ _ _ _ h1 h2
        · exact handleMessage_drop_manager _ _ _ _ _ h1 h2 hm
  rw [hdrop]
  exact ⟨rfl, rfl, rfl, rfl, rfl, rfl⟩

/-- Witness for C6: a message with an empty name is dropped with one ack
and no side effects. -/
theorem drop_ack_and_no_side_effects_witness :
    (handleMessage
        ⟨fun _ => none, fun _ => Except.ok (), fun _ => RunOutcome.fail "x", Except.ok ()⟩
        ⟨"", "npm", "", "", ""⟩ none "rb" "tag").ret = Except.ok ()
    ∧ (handleMessage
        ⟨fun _ => none, fun _ => Except.ok (), fun _ => RunOutcome.fail "x", Except.ok ()⟩
        ⟨"", "npm", "", "", ""⟩ none "rb" "tag").trace.acks = 1
    ∧ (handleMessage
        ⟨fun _ => none, fun _ => Except.ok (), fun _ => RunOutcome.fail "x", Except.ok ()⟩
        ⟨"", "npm", "", "", ""⟩ none "rb" "tag").trace.stagingAttempted = false
    ∧ (handleMessage
        ⟨fun _ => none, fun _ => Except.ok (), fun _ => RunOutcome.fail "x", Except.ok ()⟩
        ⟨"", "npm", "", "", ""⟩ none "rb" "tag").trace.phasesRun = []
    ∧ (handleMessage
        ⟨fun _ => none, fun _ => Except.ok (), fun _ => RunOutcome.fail "x", Except.ok ()⟩
        ⟨"", "npm", "", "", ""⟩ none "rb" "tag").trace.uploadAttempted = false
    ∧ (handleMessage
        ⟨fun _ => none, fun _ => Except.ok (), fun _ => RunOutcome.fail "x", Except.ok ()⟩
        ⟨"", "npm", "", "", ""⟩ none "rb" "tag").exec = none :=
  drop_ack_and_no_side_effects
    ⟨fun _ => none, fun _ => Except.ok (), fun _ => RunOutcome.fail "x", Except.ok ()⟩
    ⟨"", "npm", "", "", ""⟩ none "rb" "tag" (Or.inl rfl)

/-- C8: a message carrying a `package_path` while no packages store is
configured makes `handleMessage` return the hard error
`packages bucket not set` before any staging, execution, or upload, and
without acknowledging the message. -/
theorem package_path_without_store_is_hard_error (env : WorkerEnv) (msg : Msg)
    (resultsBucket imageTag : String) (mgr : Manager)
    (h1 : ¬ msg.name = "") (h2 : ¬ msg.ecosystem = "")
    (hm : env.manager msg.ecosystem = some mgr) (h3 : msg.packagePath ≠ "") :
    (handleMessage env msg none resultsBucket imageTag).ret
        = Except.error "packages bucket not set"
    ∧ (handleMessage env msg none resultsBucket imageTag).trace.acks = 0
    ∧ (handleMessage env msg none resultsBucket imageTag).trace.stagingAttempted = false
    ∧ (handleMessage env msg none resultsBucket imageTag).trace.phasesRun = []
    ∧ (handleMessage env msg none resultsBucket imageTag).trace.uploadAttempted = false
    ∧ (handleMessage env msg none resultsBucket imageTag).exec = none := by
  rw [handleMessage_no_packages_bucket env msg resultsBucket imageTag mgr h1 h2 hm h3]
  exact ⟨rfl, rfl, rfl, rfl, rfl, rfl⟩

/-- Witness for C8: a concrete message with `package_path` set and a nil
packages bucket. -/
theorem package_path_without_store_witness :
    (handleMessage
        ⟨fun _ => some ⟨"img", ["install"], fun _ => Except.ok "1.0"⟩,
          fun _ => Except.ok (), fun _ => RunOutcome.ok ⟨Status.completed, ""⟩, Except.ok ()⟩
        ⟨"p", "npm", "", "some/path.tgz", ""⟩ none "rb" "tag").ret
      = Except.error "packages bucket not set"
    ∧ (handleMessage
        ⟨fun _ => some ⟨"img", ["install"], fun _ => Except.ok "1.0"⟩,
          fun _ => Except.ok (), fun _ => RunOutcome.ok ⟨Status.completed, ""⟩, Except.ok ()⟩
        ⟨"p", "npm", "", "some/path.tgz", ""⟩ none "rb" "tag").trace.acks = 0 :=
  have h := package_path_without_store_is_hard_error
    ⟨fun _ => some ⟨"img", ["install"], fun _ => Except.ok "1.0"⟩,
      fun _ => Except.ok (), fun _ => RunOutcome.ok ⟨Status.completed, ""⟩, Except.ok ()⟩
    ⟨"p", "npm", "", "some/path.tgz", ""⟩ "rb" "tag"
    ⟨"img", ["install"], fun _ => Except.ok "1.0"⟩
    (by decide) (by decide) rfl (by decide)
  ⟨h.1, h.2.1⟩

/-- C7: package resolution precedence in `handleMessage`: a successfully
staged local path wins (the package is resolved as local and no
latest-version lookup happens); otherwise a non-empty explicit version is
used (no lookup); otherwise a latest-version lookup runs, whose failure
makes `handleMessage` return that error without acknowledging. -/
theorem package_resolution_precedence (env : WorkerEnv) (msg : Msg)
    (packagesBucket : Option Unit) (resultsBucket imageTag : String) (mgr : Manager)
    (h1 : ¬ msg.name = "") (h2 : ¬ msg.ecosystem = "")
    (hm : env.manager msg.ecosystem = some mgr) :
    (msg.packagePath ≠ "" → env.stage msg.packagePath = Except.ok () →
      (handleMessage env msg (some ()) resultsBucket imageTag).pkg
          = some (Pkg.localPkg msg.name msg.version ("/local/" ++ pathBase msg.packagePath))
      ∧ (handleMessage env msg (some ()) resultsBucket imageTag).trace.latestLookups = 0)
    ∧ (msg.packagePath = "" → msg.version ≠ "" →
      (handleMessage env msg packagesBucket resultsBucket imageTag).pkg
          = some (Pkg.package msg.name msg.version)
      ∧ (handleMessage env msg packagesBucket resultsBucket imageTag).trace.latestLookups = 0)
    ∧ (msg.packagePath = "" → msg.version = "" →
      (∀ e, mgr.latestVersion msg.name = Except.error e →
        (handleMessage env msg packagesBucket resultsBucket imageTag).ret = Except.error e
        ∧ (handleMessage env msg packagesBucket resultsBucket imageTag).trace.acks = 0
        ∧ (handleMessage env msg packagesBucket resultsBucket imageTag).pkg = none)
      ∧ (∀ v, mgr.latestVersion msg.name = Except.ok v →
        (handleMessage env msg packagesBucket resultsBucket imageTag).pkg
            = some (Pkg.latest msg.name v)
        ∧ (handleMessage env msg packagesBucket resultsBucket imageTag).trace.latestLookups
            = 1)) := by
  refine ⟨?_, ?_, ?_⟩
  · intro h3 hst
    rw [handleMessage_staged env msg resultsBucket imageTag mgr h1 h2 hm h3 hst]
    have h := runAndUpload_spec env
      (Pkg.localPkg msg.name msg.version ("/local/" ++ pathBase msg.packagePath))
      mgr.dynamicPhases
      (if msg.resultsBucketOverride ≠ "" then msg.resultsBucketOverride else resultsBucket)
      ⟨0, true, [], 0, false⟩
    exact ⟨h.2.1, h.2.2.2.2.1⟩
  · intro h3 h4
    rw [handleMessage_explicit_version env msg packagesBucket resultsBucket imageTag
      mgr h1 h2 hm h3 h4]
    have h := runAndUpload_spec env (Pkg.package msg.name msg.version) mgr.dynamicPhases
      (if msg.resultsBucketOverride ≠ "" then msg.resultsBucketOverride else resultsBucket)
      ⟨0, false, [], 0, false⟩
    exact ⟨h.2.1, h.2.2.2.2.1⟩
  · intro h3 h4
    constructor
    · intro e hl
      rw [handleMessage_latest_error env msg packagesBucket resultsBucket imageTag
        mgr e h1 h2 hm h3 h4 hl]
      exact ⟨rfl, rfl, rfl⟩
    · intro v hl
      rw [handleMessage_latest_ok env msg packagesBucket resultsBucket imageTag
        mgr v h1 h2 hm h3 h4 hl]
      have h := runAndUpload_spec env (Pkg.latest msg.name v) mgr.dynamicPhases
        (if msg.resultsBucketOverride ≠ "" then msg.resultsBucketOverride else resultsBucket)
        ⟨0, false, [], 1, false⟩
      exact ⟨h.2.1, h.2.2.2.2.1⟩

lemma envW_manager_npm : envW.manager "npm" = some mgrW := by
  simp [envW]

/-- Witness for C7: one environment exercising all three precedence
levels (staged local path, explicit version, latest lookup) and the
failing-lookup hard error. -/
theorem package_resolution_precedence_witness :
    (handleMessage envW ⟨"p", "npm", "1.0", "dir/a.tgz", ""⟩ (some ()) "rb" "tag").pkg
      = some (Pkg.localPkg "p" "1.0" "/local/a.tgz")
    ∧ (handleMessage envW ⟨"p", "npm", "1.0", "", ""⟩ (some ()) "rb" "tag").pkg
      = some (Pkg.package "p" "1.0")
    ∧ (handleMessage envW ⟨"pkgA", "npm", "", "", ""⟩ (some ()) "rb" "tag").pkg
      = some (Pkg.latest "pkgA" "9.9")
    ∧ (handleMessage envW ⟨"pkgB", "npm", "", "", ""⟩ (some ()) "rb" "tag").ret
      = Except.error "no version" := by
  refine ⟨?_, ?_, ?_, ?_⟩
  · have h := ((package_resolution_precedence envW
      ⟨"p", "npm", "1.0", "dir/a.tgz", ""⟩ (some ()) "rb" "tag" mgrW
      (by decide) (by decide) envW_manager_npm).1 (by decide) rfl).1
    simpa using h
  · exact ((package_resolution_precedence envW
      ⟨"p", "npm", "1.0", "", ""⟩ (some ()) "rb" "tag" mgrW
      (by decide) (by decide) envW_manager_npm).2.1 rfl (by decide)).1
  · exact (((package_resolution_precedence envW
      ⟨"pkgA", "npm", "", "", ""⟩ (some ()) "rb" "tag" mgrW
      (by decide) (by decide) envW_manager_npm).2.2 rfl rfl).2 "9.9" (by simp [mgrW])).1
  · exact (((package_resolution_precedence envW
      ⟨"pkgB", "npm", "", "", ""⟩ (some ()) "rb" "tag" mgrW
      (by decide) (by decide) envW_manager_npm).2.2 rfl rfl).1 "no version"
      (by simp [mgrW])).1

/-- C9: when the ecosystem's phase list is empty, any `handleMessage`
invocation that reaches phase execution produces the empty ResultSet,
`finalStatus = Completed` (the executor's initial default),
`lastPhase = ""`, and the status classifier still emits its (Completed)
log signal. -/
theorem empty_phase_list_yields_default (env : WorkerEnv) (msg : Msg)
    (packagesBucket : Option Unit) (resultsBucket imageTag : String)
    (mgr : Manager) (e : ExecOut)
    (hm : env.manager msg.ecosystem = some mgr)
    (hph : mgr.dynamicPhases = [])
    (hexec : (handleMessage env msg packagesBucket resultsBucket imageTag).exec = some e) :
    (∀ k, e.results k = none) ∧ e.finalStatus = Status.completed
    ∧ e.lastPhase = "" ∧ e.executed = []
    ∧ (handleMessage env msg packagesBucket resultsBucket imageTag).statusSignal
        = some (LogSignal.info "Analysis completed sucessfully") := by
  have hE : runPhases env.run emptyResults Status.completed "" mgr.dynamicPhases
      = ⟨emptyResults, Status.completed, "", [], none⟩ := by
    rw [hph]
    rfl
  have key : ∀ (pkg : Pkg) (eff : String) (t : Trace),
      (runAndUpload env pkg mgr.dynamicPhases eff t).exec = some e →
      (∀ k, e.results k = none) ∧ e.finalStatus = Status.completed
      ∧ e.lastPhase = "" ∧ e.executed = []
      ∧ (runAndUpload env pkg mgr.dynamicPhases eff t).statusSignal
          = some (LogSignal.info "Analysis completed sucessfully") := by
    intro pkg eff t hex
    have hs := runAndUpload_spec env pkg mgr.dynamicPhases eff t
    rw [hs.1, hE] at hex
    have he : e = ⟨emptyResults, Status.completed, "", [], none⟩ :=
      (Option.some.inj hex).symm
    subst he
    refine ⟨fun k => rfl, rfl, rfl, rfl, ?_⟩
    have hsig := hs.2.2.2.2.2.2.2.2.2 (by rw [hE])
    rw [hsig, hE]
    rfl
  by_cases h1 : msg.name = ""
  · rw [handleMessage_drop_name env msg packagesBucket resultsBucket imageTag h1] at hexec
    simp [dropOutcome] at hexec
  by_cases h2 : msg.ecosystem = ""
  · rw [handleMessage_drop_ecosystem env msg packagesBucket resultsBucket imageTag h1 h2]
      at hexec
    simp [dropOutcome] at hexec
  by_cases h3 : msg.packagePath = ""
  · by_cases h4 : msg.version = ""
    · cases hl : mgr.latestVersion msg.name with
      | error el =>
        rw [handleMessage_latest_error env msg packagesBucket resultsBucket imageTag
          mgr el h1 h2 hm h3 h4 hl] at hexec
        simp at hexec
      | ok v =>
        rw [handleMessage_latest_ok env msg packagesBucket resultsBucket imageTag
          mgr v h1 h2 hm h3 h4 hl] at hexec ⊢
        exact key _ _ _ hexec
    · rw [handleMessage_explicit_version env msg packagesBucket resultsBucket imageTag
        mgr h1 h2 hm h3 h4] at hexec ⊢
      exact key _ _ _ hexec
  · cases packagesBucket with
    | none =>
      rw [handleMessage_no_packages_bucket env msg resultsBucket imageTag mgr h1 h2 hm h3]
        at hexec
      simp at hexec
    | some u =>
      cases u
      cases hst : env.stage msg.packagePath with
      | error es =>
        rw [handleMessage_stage_error env msg resultsBucket imageTag mgr es h1 h2 hm h3 hst]
          at hexec
        simp at hexec
      | ok u2 =>
        cases u2
        rw [handleMessage_staged env msg resultsBucket imageTag mgr h1 h2 hm h3 hst]
          at hexec ⊢
        exact key _ _ _ hexec

/-- Witness for C9: a concrete job against the zero-phase ecosystem. -/
theorem empty_phase_list_yields_default_witness :
    (⟨emptyResults, Status.completed, "", [], none⟩ : ExecOut).finalStatus
        = Status.completed
    ∧ (⟨emptyResults, Status.completed, "", [], none⟩ : ExecOut).results "install" = none
    ∧ (⟨emptyResults, Status.completed, "", [], none⟩ : ExecOut).executed = []
    ∧ (handleMessage envW0 ⟨"p", "npm", "1.0", "", ""⟩ none "rb" "tag").statusSignal
        = some (LogSignal.info "Analysis completed sucessfully") := by
  have h := empty_phase_list_yields_default envW0 ⟨"p", "npm", "1.0", "", ""⟩
    none "rb" "tag" mgrW0 ⟨emptyResults, Status.completed, "", [], none⟩
    (by simp [envW0]) rfl rfl
  exact ⟨h.2.1, h.1 "install", h.2.2.2.1, h.2.2.2.2⟩

/-- C10: a `results_bucket_override` replaces the upload target only for
its own `handleMessage` invocation: the effective bucket of a non-dropped
invocation is the override when non-empty, else the caller's default; an
upload is only ever attempted with a non-empty effective bucket, and on a
completed (nil-returning, non-dropped) invocation an upload is attempted
exactly when the effective bucket is non-empty; and the subscription loop
hands every message the same unchanged default bucket, so the outcome of
each message is independent of other messages' overrides. -/
theorem results_bucket_override_scope (env : WorkerEnv) (msg : Msg)
    (packagesBucket : Option Unit) (resultsBucket imageTag : String) :
    (¬ dropped env msg →
      (handleMessage env msg packagesBucket resultsBucket imageTag).effectiveBucket
        = (if msg.resultsBucketOverride ≠ "" then msg.resultsBucketOverride
           else resultsBucket))
    ∧ ((handleMessage env msg packagesBucket resultsBucket imageTag).trace.uploadAttempted
          = true →
      (handleMessage env msg packagesBucket resultsBucket imageTag).effectiveBucket ≠ "")
    ∧ (retOk (handleMessage env msg packagesBucket resultsBucket imageTag).ret = true →
      ¬ dropped env msg →
      ((handleMessage env msg packagesBucket resultsBucket imageTag).trace.uploadAttempted
          = true
        ↔ (handleMessage env msg packagesBucket resultsBucket imageTag).effectiveBucket
          ≠ ""))
    ∧ (∀ (msgs : List Msg) (i : Nat), i < msgs.length →
      (messageOutcomes env msgs packagesBucket resultsBucket imageTag).getD i
          (dropOutcome resultsBucket)
        = handleMessage env (msgs.getD i ⟨"", "", "", "", ""⟩) packagesBucket resultsBucket
            imageTag) := by
  have hframe : ∀ (msgs : List Msg) (i : Nat), i < msgs.length →
      (messageOutcomes env msgs packagesBucket resultsBucket imageTag).getD i
          (dropOutcome resultsBucket)
        = handleMessage env (msgs.getD i ⟨"", "", "", "", ""⟩) packagesBucket resultsBucket
            imageTag := by
    intro msgs i hi
    unfold messageOutcomes
    rw [List.getD_eq_getElem _ _ (by simpa using hi), List.getElem_map,
      List.getD_eq_getElem _ _ hi]
  have key : ∀ (pkg : Pkg) (phases : List String) (eff : String) (t : Trace),
      t.uploadAttempted = false →
      ((runAndUpload env pkg phases eff t).effectiveBucket = eff
      ∧ ((runAndUpload env pkg phases eff t).trace.uploadAttempted = true → eff ≠ "")
      ∧ (retOk (runAndUpload env pkg phases eff t).ret = true →
          ((runAndUpload env pkg phases eff t).trace.uploadAttempted = true
            ↔ eff ≠ ""))) := by
    intro pkg phases eff t ht
    have hs := runAndUpload_spec env pkg phases eff t
    refine ⟨hs.2.2.1, ?_, ?_⟩
    · intro hup
      rcases hs.2.2.2.2.2.2.2.1.mp hup with ⟨_, hne⟩ | hfalse
      · exact hne
      · rw [ht] at hfalse
        simp at hfalse
    · intro hret
      obtain ⟨hinfra, _⟩ := hs.2.2.2.2.2.2.2.2.1.mp hret
      constructor
      · intro hup
        rcases hs.2.2.2.2.2.2.2.1.mp hup with ⟨_, hne⟩ | hfalse
        · exact hne
        · rw [ht] at hfalse
          simp at hfalse
      · intro hne
        exact hs.2.2.2.2.2.2.2.1.mpr (Or.inl ⟨hinfra, hne⟩)
  have hmain :
      (¬ dropped env msg →
        (handleMessage env msg packagesBucket resultsBucket imageTag).effectiveBucket
          = (if msg.resultsBucketOverride ≠ "" then msg.resultsBucketOverride
             else resultsBucket))
      ∧ ((handleMessage env msg packagesBucket resultsBucket imageTag).trace.uploadAttempted
            = true →
        (handleMessage env msg packagesBucket resultsBucket imageTag).effectiveBucket ≠ "")
      ∧ (retOk (handleMessage env msg packagesBucket resultsBucket imageTag).ret = true →
        ¬ dropped env msg →
        ((handleMessage env msg packagesBucket resultsBucket
            imageTag).trace.uploadAttempted = true
          ↔ (handleMessage env msg packagesBucket resultsBucket imageTag).effectiveBucket
            ≠ "")) := by
    by_cases h1 : msg.name = ""
    · rw [handleMessage_drop_name env msg packagesBucket resultsBucket imageTag h1]
      refine ⟨fun hnd => absurd (Or.inl h1) hnd, ?_, ?_⟩
      · intro hup
        simp [dropOutcome] at hup
      · intro _ hnd
        exact absurd (Or.inl h1) hnd
    by_cases h2 : msg.ecosystem = ""
    · rw [handleMessage_drop_ecosystem env msg packagesBucket resultsBucket imageTag h1 h2]
      refine ⟨fun hnd => absurd (Or.inr (Or.inl h2)) hnd, ?_, ?_⟩
      · intro hup
        simp [dropOutcome] at hup
      · intro _ hnd
        exact absurd (Or.inr (Or.inl h2)) hnd
    cases hm : env.manager msg.ecosystem with
    | none =>
      rw [handleMessage_drop_manager env msg packagesBucket resultsBucket imageTag h1 h2 hm]
      refine ⟨fun hnd => absurd (Or.inr (Or.inr hm)) hnd, ?_, ?_⟩
      · intro hup
        simp [dropOutcome] at hup
      · intro _ hnd
        exact absurd (Or.inr (Or.inr hm)) hnd
    | some mgr =>
      by_cases h3 : msg.packagePath = ""
      · by_cases h4 : msg.version = ""
        · cases hl : mgr.latestVersion msg.name with
          | error el =>
            rw [handleMessage_latest_error env msg packagesBucket resultsBucket imageTag
              mgr el h1 h2 hm h3 h4 hl]
            refine ⟨fun _ => rfl, ?_, ?_⟩
            · intro hup
              simp at hup
            · intro hret
              simp [retOk] at hret
          | ok v =>
            rw [handleMessage_latest_ok env msg packagesBucket resultsBucket imageTag
              mgr v h1 h2 hm h3 h4 hl]
            have hk := key (Pkg.latest msg.name v) mgr.dynamicPhases
              (if msg.resultsBucketOverride ≠ "" then msg.resultsBucketOverride
               else resultsBucket) ⟨0, false, [], 1, false⟩ rfl
            refine ⟨fun _ => hk.1, ?_, ?_⟩
            · rw [hk.1]
              exact hk.2.1
            · intro hret _
              rw [hk.1]
              exact hk.2.2 hret
        · rw [handleMessage_explicit_version env msg packagesBucket resultsBucket imageTag
            mgr h1 h2 hm h3 h4]
          have hk := key (Pkg.package msg.name msg.version) mgr.dynamicPhases
            (if msg.resultsBucketOverride ≠ "" then msg.resultsBucketOverride
             else resultsBucket) ⟨0, false, [], 0, false⟩ rfl
          refine ⟨fun _ => hk.1, ?_, ?_⟩
          · rw [hk.1]
            exact hk.2.1
          · intro hret _
            rw [hk.1]
            exact hk.2.2 hret
      · cases packagesBucket with
        | none =>
          rw [handleMessage_no_packages_bucket env msg resultsBucket imageTag mgr h1 h2 hm h3]
          refine ⟨fun _ => rfl, ?_, ?_⟩
          · intro hup
            simp at hup
          · intro hret
            simp [retOk] at hret
        | some u =>
          cases u
          cases hst : env.stage msg.packagePath with
          | error es =>
            rw [handleMessage_stage_error env msg resultsBucket imageTag mgr es h1 h2 hm
              h3 hst]
            refine ⟨fun _ => rfl, ?_, ?_⟩
            · intro hup
              simp at hup
            · intro hret
              simp [retOk] at hret
          | ok u2 =>
            cases u2
            rw [handleMessage_staged env msg resultsBucket imageTag mgr h1 h2 hm h3 hst]
            have hk := key
              (Pkg.localPkg msg.name msg.version ("/local/" ++ pathBase msg.packagePath))
              mgr.dynamicPhases
              (if msg.resultsBucketOverride ≠ "" then msg.resultsBucketOverride
               else resultsBucket) ⟨0, true, [], 0, false⟩ rfl
            refine ⟨fun _ => hk.1, ?_, ?_⟩
            · rw [hk.1]
              exact hk.2.1
            · intro hret _
              rw [hk.1]
              exact hk.2.2 hret
  exact ⟨hmain.1, hmain.2.1, hmain.2.2, hframe⟩

/-- Witness for C10: with default bucket `rb`, a first message carrying
override `ovr` uploads to `ovr`, while the second message of the same
loop still gets the unchanged default `rb`. -/
theorem results_bucket_override_scope_witness :
    ((messageOutcomes envW
        [⟨"p", "npm", "1.0", "", "ovr"⟩, ⟨"p", "npm", "1.0", "", ""⟩]
        (some ()) "rb" "tag").getD 1 (dropOutcome "rb")).effectiveBucket = "rb"
    ∧ (handleMessage envW ⟨"p", "npm", "1.0", "", "ovr"⟩
        (some ()) "rb" "tag").effectiveBucket = "ovr"
    ∧ (handleMessage envW ⟨"p", "npm", "1.0", "", "ovr"⟩
        (some ()) "rb" "tag").trace.uploadAttempted = true := by
  refine ⟨?_, ?_, ?_⟩
  · have hf := (results_bucket_override_scope envW ⟨"", "", "", "", ""⟩
      (some ()) "rb" "tag").2.2.2
      [⟨"p", "npm", "1.0", "", "ovr"⟩, ⟨"p", "npm", "1.0", "", ""⟩] 1 (by decide)
    rw [hf]
    have h1 := (results_bucket_override_scope envW ⟨"p", "npm", "1.0", "", ""⟩
      (some ()) "rb" "tag").1 (by decide)
    show (handleMessage envW ⟨"p", "npm", "1.0", "", ""⟩
      (some ()) "rb" "tag").effectiveBucket = "rb"
    simpa using h1
  · have h1 := (results_bucket_override_scope envW ⟨"p", "npm", "1.0", "", "ovr"⟩
      (some ()) "rb" "tag").1 (by decide)
    simpa using h1
  · have h3 := (results_bucket_override_scope envW ⟨"p", "npm", "1.0", "", "ovr"⟩
      (some ()) "rb" "tag").2.2.1 (by decide) (by decide)
    exact h3.mpr (by decide)

/-! ### ResultSet contents and (non-)ordering (claim C2) -/

/-- C2 counterexample: the `results` accumulator is a Go map — an
unordered key-value association — so it does not determine the execution
order. Two runs over the same phases in opposite orders (`[install, run]`
versus `[run, install]`, every phase completing with the same Result)
produce exactly the same ResultSet value while their execution orders
differ; hence no serialization that is a function of the ResultSet can
emit the phase-name → Result mapping in execution order for both runs,
refuting the claim that insertion order is preserved through upload. -/
theorem resultset_insertion_order_not_preserved :
    (runPhases (fun _ => RunOutcome.ok ⟨Status.completed, ""⟩)
        emptyResults Status.completed "" ["install", "run"]).results
      = (runPhases (fun _ => RunOutcome.ok ⟨Status.completed, ""⟩)
        emptyResults Status.completed "" ["run", "install"]).results
    ∧ (runPhases (fun _ => RunOutcome.ok ⟨Status.completed, ""⟩)
        emptyResults Status.completed "" ["install", "run"]).executed
      ≠ (runPhases (fun _ => RunOutcome.ok ⟨Status.completed, ""⟩)
        emptyResults Status.completed "" ["run", "install"]).executed
    ∧ ¬ ∃ ser : (String → Option AnalysisResult) → List String,
        ∀ l : List String,
          ser (runPhases (fun _ => RunOutcome.ok ⟨Status.completed, ""⟩)
              emptyResults Status.completed "" l).results
            = (runPhases (fun _ => RunOutcome.ok ⟨Status.completed, ""⟩)
              emptyResults Status.completed "" l).executed := by
  have hmaps :
      (runPhases (fun _ => RunOutcome.ok ⟨Status.completed, ""⟩)
          emptyResults Status.completed "" ["install", "run"]).results
        = (runPhases (fun _ => RunOutcome.ok ⟨Status.completed, ""⟩)
          emptyResults Status.completed "" ["run", "install"]).results := by
    funext x
    show (insertResult "run" ⟨Status.completed, ""⟩
        (insertResult "install" ⟨Status.completed, ""⟩ emptyResults)) x
      = (insertResult "install" ⟨Status.completed, ""⟩
        (insertResult "run" ⟨Status.completed, ""⟩ emptyResults)) x
    by_cases h1 : x = "install" <;> by_cases h2 : x = "run" <;>
      simp [insertResult, emptyResults, h1, h2]
  have hexec :
      (runPhases (fun _ => RunOutcome.ok ⟨Status.completed, ""⟩)
          emptyResults Status.completed "" ["install", "run"]).executed
        ≠ (runPhases (fun _ => RunOutcome.ok ⟨Status.completed, ""⟩)
          emptyResults Status.completed "" ["run", "install"]).executed := by
    decide
  refine ⟨hmaps, hexec, ?_⟩
  rintro ⟨ser, hser⟩
  have h1 := hser ["install", "run"]
  have h2 := hser ["run", "install"]
  rw [hmaps] at h1
  exact hexec (h1.symm.trans h2)

/-- C2 amended: the ResultSet built by the executor holds exactly one
entry per phase attempted — after a run with no infrastructure error, the
map sends each executed phase name to the Result its `analysis.Run` call
produced and every other key to its prior value — but, the Go map being
unordered, the ResultSet itself does not record execution order, so
serialization in execution order is not guaranteed. -/
theorem resultset_one_entry_per_attempted_phase (run : String → RunOutcome) :
    ∀ (l : List String) (m : String → Option AnalysisResult) (s : Status) (p : String),
      (runPhases run m s p l).infraError = none →
      ∀ k, (runPhases run m s p l).results k
        = if k ∈ (runPhases run m s p l).executed then okValue (run k) else m k := by
  intro l
  induction l with
  | nil =>
    intro m s p _ k
    simp [runPhases]
  | cons ph rest ih =>
    intro m s p herr k
    cases hr : run ph with
    | fail e =>
      rw [show (runPhases run m s p (ph :: rest)).infraError = some e by
        simp [runPhases, hr]] at herr
      cases herr
    | ok r =>
      by_cases hst : r.status = Status.completed
      · have hstep : runPhases run m s p (ph :: rest)
            = { runPhases run (insertResult ph r m) Status.completed ph rest
                with executed :=
                  ph :: (runPhases run (insertResult ph r m) Status.completed ph
                    rest).executed } := by
          simp only [runPhases, hr, hst, ne_eq, not_true_eq_false, if_false]
        rw [hstep] at herr ⊢
        have ihk := ih (insertResult ph r m) Status.completed ph herr k
        by_cases hin : k ∈ (runPhases run (insertResult ph r m) Status.completed ph
            rest).executed
        · simp only [List.mem_cons, hin, or_true, if_pos]
          rw [ihk, if_pos hin]
        · by_cases hkp : k = ph
          · subst hkp
            simp only [List.mem_cons, true_or, if_pos]
            rw [ihk, if_neg hin]
            simp [insertResult, okValue, hr]
          · have hnotin : ¬ k ∈ ph ::
                (runPhases run (insertResult ph r m) Status.completed ph rest).executed := by
              simp [hkp, hin]
            rw [if_neg hnotin]
            rw [ihk, if_neg hin]
            simp [insertResult, hkp]
      · have hstep : runPhases run m s p (ph :: rest)
            = ⟨insertResult ph r m, r.status, ph, [ph], none⟩ := by
          simp only [runPhases, hr]
          rw [if_pos hst]
        rw [hstep]
        by_cases hkp : k = ph
        · subst hkp
          simp [insertResult, okValue, hr]
        · simp [insertResult, hkp]

/-- Witness for the amended C2 theorem: a successful two-phase run where
the executed phase `install` is mapped to its Result and the unexecuted
key `other` stays empty. -/
theorem resultset_one_entry_witness :
    (runPhases (fun _ => RunOutcome.ok ⟨Status.completed, ""⟩)
        emptyResults Status.completed "" ["install", "run"]).results "install"
      = (if "install" ∈ (runPhases (fun _ => RunOutcome.ok ⟨Status.completed, ""⟩)
          emptyResults Status.completed "" ["install", "run"]).executed
         then okValue ((fun _ => RunOutcome.ok ⟨Status.completed, ""⟩) "install")
         else emptyResults "install")
    ∧ (runPhases (fun _ => RunOutcome.ok ⟨Status.completed, ""⟩)
        emptyResults Status.completed "" ["install", "run"]).results "other"
      = (if "other" ∈ (runPhases (fun _ => RunOutcome.ok ⟨Status.completed, ""⟩)
          emptyResults Status.completed "" ["install", "run"]).executed
         then okValue ((fun _ => RunOutcome.ok ⟨Status.completed, ""⟩) "other")
         else emptyResults "other") :=
  ⟨resultset_one_entry_per_attempted_phase (fun _ => RunOutcome.ok ⟨Status.completed, ""⟩)
      ["install", "run"] emptyResults Status.completed "" (by decide) "install",
    resultset_one_entry_per_attempted_phase (fun _ => RunOutcome.ok ⟨Status.completed, ""⟩)
      ["install", "run"] emptyResults Status.completed "" (by decide) "other"⟩

end PackageAnalysis
